import Mathlib

/-!
# Verification of the `ising_sim` simulation core

Shallow embedding of `ising_sim/sim/_isingsimulation.py` (class
`IsingSimulation`) and `ising_sim/_correlations.py`
(`compute_correlations`), together with theorems settling the frozen
claims about the specification.

Modelling conventions:
* A spin configuration (a Python dict `{i: ±1 for i in range(length)}`)
  is a `List ℤ` of length `length`, index `i` holding spin `i`.
* The global pseudo-random source is an explicit stream
  `rand : ℕ → ℕ × Bool` together with a cursor `pos : ℕ`.  Each
  elementary trial step consumes one stream element `(n, b)`:
  `n % length` models `random.randint(0, length-1)` (every index is
  reachable), and `b` models the outcome of the comparison
  `random.random() < exp(-dE / T)` in the Metropolis test.  Since every
  claim quantifies over the stream (or exhibits one realisable concrete
  stream), abstracting the float comparison to its Boolean outcome is
  sound; no claim depends on exact stream positions.
* Python exceptions are modelled with `Except String`.
-/

/-- The state of `IsingSimulation`: `_length`, `_J`, `_state`,
`_initial_state`, `_past_states`.  (`_subgraphs` is a pure function of
`J` and is embedded as `subgraphValue` below.) -/
structure IsingSimulation where
  length : ℕ
  J : ℤ
  state : List ℤ
  initial_state : List ℤ
  past_states : List (List ℤ)
  deriving DecidableEq, Repr

/-- `IsingSimulation.__init__(length, J=-1, initial_state=None)`.
With `initial_state is None` the configuration is all `1`s; otherwise
the dict comprehension `{i: initial_state[i] for i in range(length)}`
is built and rejected with `ValueError` when
`set(values) != {1, -1}`. -/
def init (length : ℕ) (J : ℤ) (initial_state : Option (List ℤ)) :
    Except String IsingSimulation :=
  match initial_state with
  | none =>
    let st : List ℤ := List.replicate length 1
    .ok ⟨length, J, st, st, []⟩
  | some l =>
    let st : List ℤ := (List.range length).map (fun i => l.getD i 0)
    if st.toFinset = ({1, -1} : Finset ℤ) then .ok ⟨length, J, st, st, []⟩
    else .error "Spins must be either 1 or -1"

/-- The value of `self._subgraphs[i] = J * z[i] * (z[i-1] + z[i+1])` on a
configuration, where `z[-1] = z[length] = 0` are the boundary
sentinels.  `List.getD _ 0` returns `0` exactly at the out-of-range
sentinel positions. -/
def subgraphValue (J : ℤ) (st : List ℤ) (i : ℕ) : ℤ :=
  J * st.getD i 0 *
    ((if i = 0 then 0 else st.getD (i - 1) 0) + st.getD (i + 1) 0)

/-- `self._state[i] *= -1`: flip spin `i`. -/
def flipSpin (st : List ℤ) (i : ℕ) : List ℤ :=
  st.set i (-(st.getD i 0))

/-- One elementary trial step of a sweep (the body of the
`for _ in range(self._length)` loop in `update`): choose a spin,
compute `dE` from the subgraph values before and after the flip, accept
with `dE < 0 or (T and random.random() < exp(-dE / T))`, otherwise flip
the spin back.  `r.1 % len` models `random.randint(0, length-1)` and
`r.2` the Boolean outcome of the probabilistic comparison (only
consulted when `T` is truthy, mirroring Python's short-circuit on
`T and ...`). -/
def trialStep (J : ℤ) (len : ℕ) (T : ℚ) (st : List ℤ) (fl : Finset ℕ)
    (r : ℕ × Bool) : List ℤ × Finset ℕ :=
  let i := r.1 % len
  let E := subgraphValue J st i
  let st1 := flipSpin st i
  let Eflip := subgraphValue J st1 i
  let dE := Eflip - E
  if dE < 0 ∨ (T ≠ 0 ∧ r.2 = true) then (st1, insert i fl)
  else (flipSpin st1 i, fl)

/-- Run `k` trial steps, consuming stream entries
`rand pos, rand (pos+1), ...`. -/
def runTrials (J : ℤ) (len : ℕ) (T : ℚ) (rand : ℕ → ℕ × Bool) :
    ℕ → ℕ → List ℤ × Finset ℕ → List ℤ × Finset ℕ
  | _, 0, sf => sf
  | pos, k + 1, sf =>
      runTrials J len T rand (pos + 1) k (trialStep J len T sf.1 sf.2 (rand pos))

/-- `IsingSimulation._add_past_state`: append, then `pop(0)` when the
buffer holds more than 1000 entries. -/
def addPastState (past : List (List ℤ)) (s : List ℤ) : List (List ℤ) :=
  let p := past ++ [s]
  if 1000 < p.length then p.drop 1 else p

/-- The `num_updates == 1` branch of `update`: record the pre-sweep
state, then run `length` trial steps.  Returns the new simulation, the
flipped set, and the new stream cursor. -/
def doSweep (sim : IsingSimulation) (T : ℚ) (rand : ℕ → ℕ × Bool)
    (pos : ℕ) : IsingSimulation × Finset ℕ × ℕ :=
  let past := addPastState sim.past_states sim.state
  let r := runTrials sim.J sim.length T rand pos sim.length (sim.state, ∅)
  ({ sim with state := r.1, past_states := past }, r.2, pos + sim.length)

/-- The element-wise membership-toggle loop
`for spin in f: remove spin if present else add spin`.  Since `f` is a
set (no duplicates), toggling each of its elements once computes the
symmetric difference. -/
def xorFlips (a b : Finset ℕ) : Finset ℕ := (a ∪ b) \ (a ∩ b)

/-- The body of the `for _ in range(num_updates)` loop in `update`:
one recursive single-sweep call (`self.update(T)`, i.e. `num_updates`
defaulted to 1) followed by the membership-toggle accumulation. -/
def sweepStep (T : ℚ) (rand : ℕ → ℕ × Bool)
    (acc : IsingSimulation × Finset ℕ × ℕ) : IsingSimulation × Finset ℕ × ℕ :=
  let r := doSweep acc.1 T rand acc.2.2
  (r.1, xorFlips acc.2.1 r.2.1, r.2.2)

/-- `IsingSimulation.update(T, num_updates)`.  `num_updates` is a `ℕ`
(the `num_updates < 0` `ValueError` branch of the source is
unreachable here); `num_updates > 1` repeats the recursive
single-sweep call, accumulating flips with the toggle loop;
`num_updates == 1` is one sweep; `num_updates == 0` falls through all
branches and returns the empty set with nothing changed. -/
def update (sim : IsingSimulation) (T : ℚ) (numUpdates : ℕ)
    (rand : ℕ → ℕ × Bool) (pos : ℕ) : IsingSimulation × Finset ℕ × ℕ :=
  if 1 < numUpdates then
    (List.range numUpdates).foldl (fun acc _ => sweepStep T rand acc)
      (sim, ∅, pos)
  else if numUpdates = 1 then doSweep sim T rand pos
  else (sim, ∅, pos)

/-- The body of the `for T, n in schedule` loop in `schedule_update`:
one `update(T, n)` call followed by the membership-toggle
accumulation. -/
def planStep (rand : ℕ → ℕ × Bool)
    (acc : IsingSimulation × Finset ℕ × ℕ) (p : ℚ × ℕ) :
    IsingSimulation × Finset ℕ × ℕ :=
  let r := update acc.1 p.1 p.2 rand acc.2.2
  (r.1, xorFlips acc.2.1 r.2.1, r.2.2)

/-- `IsingSimulation.schedule_update(schedule)`: run `update` for each
`(T, n)` pair in order, accumulating flips with the toggle loop. -/
def schedule_update (sim : IsingSimulation) (schedule : List (ℚ × ℕ))
    (rand : ℕ → ℕ × Bool) (pos : ℕ) : IsingSimulation × Finset ℕ × ℕ :=
  schedule.foldl (planStep rand) (sim, ∅, pos)

/-- `IsingSimulation.reset`. -/
def reset (sim : IsingSimulation) : IsingSimulation :=
  { sim with state := sim.initial_state, past_states := [] }

/-- Python list slicing `l[k:]` for a possibly negative integer start. -/
def pySliceFrom {α : Type} (l : List α) (k : ℤ) : List α :=
  if 0 ≤ k then l.drop k.toNat else l.drop (l.length - (-k).toNat)

/-- `IsingSimulation.get_past_states(num_states)`:
`self._past_states[-num_states+1:] + [self.state]`. -/
def get_past_states (sim : IsingSimulation) (numStates : ℤ) :
    List (List ℤ) :=
  pySliceFrom sim.past_states (-numStates + 1) ++ [sim.state]

/-- `compute_correlations(states)`: entry `i` of the result is
`sum(s[0] * s[i] for s in states) / len(states)` for
`i in range(len(states[0]))`.  On an empty `states` the subscript
`states[0]` fails (modelled as the error case). -/
def compute_correlations (states : List (List ℤ)) :
    Except String (List ℚ) :=
  match states with
  | [] => .error "IndexError: list index out of range"
  | s0 :: _ =>
    .ok ((List.range s0.length).map (fun i =>
      (((states.map (fun s => s.getD 0 0 * s.getD i 0)).sum : ℤ) : ℚ) /
        (states.length : ℚ)))

/-- Run `n` consecutive sweeps, collecting the flipped set of each sweep
in order.  This is the reference decomposition of `update` into its
constituent sweeps. -/
def runSweeps (T : ℚ) (rand : ℕ → ℕ × Bool) :
    IsingSimulation → ℕ → ℕ → IsingSimulation × List (Finset ℕ) × ℕ
  | sim, pos, 0 => (sim, [], pos)
  | sim, pos, n + 1 =>
      let r1 := doSweep sim T rand pos
      let r2 := runSweeps T rand r1.1 r1.2.2 n
      (r2.1, r1.2.1 :: r2.2.1, r2.2.2)

/-- Run `update` once per element of a list of
(temperature, sweep count, stream, cursor) requests, keeping only the
final simulation.  Used to quantify over "any sequence of updates". -/
def applyUpdates : IsingSimulation → List (ℚ × ℕ × (ℕ → ℕ × Bool) × ℕ) →
    IsingSimulation
  | sim, [] => sim
  | sim, (T, n, rand, pos) :: rest =>
      applyUpdates (update sim T n rand pos).1 rest

/-- Per-update flipped sets of a schedule, in order: the reference
decomposition of `schedule_update` into its constituent `update`
calls. -/
def runUpdates (rand : ℕ → ℕ × Bool) :
    IsingSimulation → ℕ → List (ℚ × ℕ) →
      IsingSimulation × List (Finset ℕ) × ℕ
  | sim, pos, [] => (sim, [], pos)
  | sim, pos, (T, n) :: rest =>
      let r1 := update sim T n rand pos
      let r2 := runUpdates rand r1.1 r1.2.2 rest
      (r2.1, r1.2.1 :: r2.2.1, r2.2.2)

/-! ## Helper lemmas -/

lemma flipSpin_flipSpin (st : List ℤ) (i : ℕ) :
    flipSpin (flipSpin st i) i = st := by
  induction st generalizing i with
  | nil => rfl
  | cons a t ih =>
    cases i with
    | zero => simp [flipSpin]
    | succ j =>
      have h := ih j
      simp only [flipSpin, List.set_cons_succ, List.getD_cons_succ] at h ⊢
      rw [h]

lemma mem_xorFlips (a b : Finset ℕ) (i : ℕ) :
    i ∈ xorFlips a b ↔ Xor' (i ∈ a) (i ∈ b) := by
  simp only [xorFlips, Finset.mem_sdiff, Finset.mem_union, Finset.mem_inter,
    Xor']
  tauto

lemma xorFlips_empty_left (b : Finset ℕ) : xorFlips ∅ b = b := by
  simp [xorFlips]

lemma mem_foldl_xorFlips (l : List (Finset ℕ)) (acc : Finset ℕ) (i : ℕ) :
    i ∈ l.foldl xorFlips acc ↔
      Xor' (i ∈ acc) (Odd (l.countP (fun f => decide (i ∈ f)))) := by
  induction l generalizing acc with
  | nil => simp [Xor']
  | cons f t ih =>
    rw [List.foldl_cons, ih, List.countP_cons, mem_xorFlips]
    by_cases hf : i ∈ f
    · have hdec : decide (i ∈ f) = true := by simpa using hf
      rw [hdec, if_pos rfl, Nat.odd_add_one]
      simp only [Xor', hf]
      tauto
    · have hdec : decide (i ∈ f) = false := by simpa using hf
      rw [hdec, if_neg (by decide), Nat.add_zero]
      simp only [Xor', hf]
      tauto

lemma foldl_xorFlips_empty (l : List (Finset ℕ))
    (h : ∀ f ∈ l, f = (∅ : Finset ℕ)) :
    l.foldl xorFlips ∅ = (∅ : Finset ℕ) := by
  induction l with
  | nil => rfl
  | cons f t ih =>
    have hf : f = ∅ := h f (by simp)
    rw [List.foldl_cons, hf, xorFlips_empty_left]
    exact ih (fun g hg => h g (by simp [hg]))

lemma foldl_sweepStep (T : ℚ) (rand : ℕ → ℕ × Bool) (n : ℕ) :
    ∀ (sim : IsingSimulation) (acc : Finset ℕ) (pos : ℕ),
      (List.range n).foldl (fun a _ => sweepStep T rand a) (sim, acc, pos)
        = ((runSweeps T rand sim pos n).1,
           (runSweeps T rand sim pos n).2.1.foldl xorFlips acc,
           (runSweeps T rand sim pos n).2.2) := by
  induction n with
  | zero => intro sim acc pos; simp [runSweeps]
  | succ m ih =>
    intro sim acc pos
    rw [List.range_succ_eq_map, List.foldl_cons, List.foldl_map]
    show (List.range m).foldl (fun a _ => sweepStep T rand a)
        (sweepStep T rand (sim, acc, pos)) = _
    rw [show sweepStep T rand (sim, acc, pos)
        = ((doSweep sim T rand pos).1,
           xorFlips acc (doSweep sim T rand pos).2.1,
           (doSweep sim T rand pos).2.2) from rfl, ih]
    simp [runSweeps]

lemma update_eq_runSweeps (sim : IsingSimulation) (T : ℚ) (n : ℕ)
    (rand : ℕ → ℕ × Bool) (pos : ℕ) :
    update sim T n rand pos
      = ((runSweeps T rand sim pos n).1,
         (runSweeps T rand sim pos n).2.1.foldl xorFlips ∅,
         (runSweeps T rand sim pos n).2.2) := by
  match n with
  | 0 => simp [update, runSweeps]
  | 1 => simp [update, runSweeps, xorFlips_empty_left]
  | (m + 2) =>
    rw [update, if_pos (by omega), foldl_sweepStep]

lemma foldl_planStep (rand : ℕ → ℕ × Bool) (plan : List (ℚ × ℕ)) :
    ∀ (sim : IsingSimulation) (acc : Finset ℕ) (pos : ℕ),
      plan.foldl (planStep rand) (sim, acc, pos)
        = ((runUpdates rand sim pos plan).1,
           (runUpdates rand sim pos plan).2.1.foldl xorFlips acc,
           (runUpdates rand sim pos plan).2.2) := by
  induction plan with
  | nil => intro sim acc pos; simp [runUpdates]
  | cons p rest ih =>
    intro sim acc pos
    obtain ⟨T, m⟩ := p
    rw [List.foldl_cons]
    rw [show planStep rand (sim, acc, pos) (T, m)
        = ((update sim T m rand pos).1,
           xorFlips acc (update sim T m rand pos).2.1,
           (update sim T m rand pos).2.2) from rfl, ih]
    simp [runUpdates]

lemma schedule_eq_runUpdates (sim : IsingSimulation)
    (plan : List (ℚ × ℕ)) (rand : ℕ → ℕ × Bool) (pos : ℕ) :
    schedule_update sim plan rand pos
      = ((runUpdates rand sim pos plan).1,
         (runUpdates rand sim pos plan).2.1.foldl xorFlips ∅,
         (runUpdates rand sim pos plan).2.2) := by
  rw [schedule_update, foldl_planStep]

lemma getD_set_ne (st : List ℤ) (j : ℕ) (v : ℤ) (i : ℕ) (h : i ≠ j) :
    (st.set j v).getD i 0 = st.getD i 0 := by
  rw [List.getD_eq_getElem?_getD, List.getD_eq_getElem?_getD,
    List.getElem?_set_ne (Ne.symm h)]

lemma trialStep_cases (J : ℤ) (len : ℕ) (T : ℚ) (st : List ℤ)
    (fl : Finset ℕ) (r : ℕ × Bool) :
    trialStep J len T st fl r
        = (flipSpin st (r.1 % len), insert (r.1 % len) fl)
    ∨ trialStep J len T st fl r = (st, fl) := by
  simp only [trialStep]
  split
  · left; rfl
  · right; rw [flipSpin_flipSpin]

lemma runTrials_flips_mono (J : ℤ) (len : ℕ) (T : ℚ)
    (rand : ℕ → ℕ × Bool) :
    ∀ (k pos : ℕ) (st : List ℤ) (fl : Finset ℕ),
      fl ⊆ (runTrials J len T rand pos k (st, fl)).2 := by
  intro k
  induction k with
  | zero => intro pos st fl; exact Finset.Subset.refl fl
  | succ m ih =>
    intro pos st fl
    simp only [runTrials]
    rcases trialStep_cases J len T st fl (rand pos) with hc | hc <;> rw [hc]
    · exact (Finset.subset_insert _ fl).trans (ih (pos + 1) _ _)
    · exact ih (pos + 1) st fl

lemma runTrials_frame (J : ℤ) (len : ℕ) (T : ℚ) (rand : ℕ → ℕ × Bool) :
    ∀ (k pos : ℕ) (st : List ℤ) (fl : Finset ℕ) (i : ℕ),
      i ∉ (runTrials J len T rand pos k (st, fl)).2 →
      (runTrials J len T rand pos k (st, fl)).1.getD i 0 = st.getD i 0 := by
  intro k
  induction k with
  | zero => intro pos st fl i _; rfl
  | succ m ih =>
    intro pos st fl i h
    simp only [runTrials] at h ⊢
    rcases trialStep_cases J len T st fl (rand pos) with hc | hc <;>
      rw [hc] at h ⊢
    · have hmem : i ∉ insert ((rand pos).1 % len) fl := by
        intro hin
        exact h (runTrials_flips_mono J len T rand m (pos + 1) _ _ hin)
      have hne : i ≠ (rand pos).1 % len := by
        intro he; exact hmem (he ▸ Finset.mem_insert_self _ _)
      rw [ih (pos + 1) _ _ i h]
      exact getD_set_ne st _ _ i hne
    · exact ih (pos + 1) st fl i h

lemma trialStep_frozen (fl : Finset ℕ) (r : ℕ × Bool) :
    trialStep (-1) 4 0 ([1, 1, 1, 1] : List ℤ) fl r = ([1, 1, 1, 1], fl) := by
  have h4 : r.1 % 4 = 0 ∨ r.1 % 4 = 1 ∨ r.1 % 4 = 2 ∨ r.1 % 4 = 3 := by omega
  rcases h4 with h | h | h | h <;>
    · simp only [trialStep, h, subgraphValue, flipSpin, List.getD]
      norm_num

lemma runTrials_frozen (rand : ℕ → ℕ × Bool) :
    ∀ (k pos : ℕ) (fl : Finset ℕ),
      runTrials (-1) 4 0 rand pos k (([1, 1, 1, 1] : List ℤ), fl)
        = ([1, 1, 1, 1], fl) := by
  intro k
  induction k with
  | zero => intro pos fl; rfl
  | succ m ih =>
    intro pos fl
    simp only [runTrials, trialStep_frozen]
    exact ih (pos + 1) fl

lemma doSweep_frozen (sim : IsingSimulation) (rand : ℕ → ℕ × Bool)
    (pos : ℕ) (hJ : sim.J = -1) (hL : sim.length = 4)
    (hS : sim.state = [1, 1, 1, 1]) :
    (doSweep sim 0 rand pos).1.J = -1 ∧
    (doSweep sim 0 rand pos).1.length = 4 ∧
    (doSweep sim 0 rand pos).1.state = [1, 1, 1, 1] ∧
    (doSweep sim 0 rand pos).2.1 = (∅ : Finset ℕ) := by
  simp [doSweep, hJ, hL, hS, runTrials_frozen]

lemma runSweeps_frozen (rand : ℕ → ℕ × Bool) :
    ∀ (n : ℕ) (sim : IsingSimulation) (pos : ℕ),
      sim.J = -1 → sim.length = 4 → sim.state = [1, 1, 1, 1] →
      (runSweeps 0 rand sim pos n).1.state = [1, 1, 1, 1] ∧
      ∀ f ∈ (runSweeps 0 rand sim pos n).2.1, f = (∅ : Finset ℕ) := by
  intro n
  induction n with
  | zero => intro sim pos _ _ hS; exact ⟨hS, by simp [runSweeps]⟩
  | succ m ih =>
    intro sim pos hJ hL hS
    obtain ⟨hJ1, hL1, hS1, hF1⟩ := doSweep_frozen sim rand pos hJ hL hS
    obtain ⟨hS2, hF2⟩ :=
      ih (doSweep sim 0 rand pos).1 (doSweep sim 0 rand pos).2.2 hJ1 hL1 hS1
    refine ⟨hS2, ?_⟩
    intro f hf
    simp only [runSweeps, List.mem_cons] at hf
    rcases hf with hf | hf
    · exact hf.trans hF1
    · exact hF2 f hf

lemma doSweep_preserves (sim : IsingSimulation) (T : ℚ)
    (rand : ℕ → ℕ × Bool) (pos : ℕ) :
    (doSweep sim T rand pos).1.length = sim.length ∧
    (doSweep sim T rand pos).1.J = sim.J ∧
    (doSweep sim T rand pos).1.initial_state = sim.initial_state ∧
    (doSweep sim T rand pos).1.past_states
      = addPastState sim.past_states sim.state := by
  simp [doSweep]

lemma runSweeps_preserves (T : ℚ) (rand : ℕ → ℕ × Bool) :
    ∀ (n : ℕ) (sim : IsingSimulation) (pos : ℕ),
      (runSweeps T rand sim pos n).1.length = sim.length ∧
      (runSweeps T rand sim pos n).1.J = sim.J ∧
      (runSweeps T rand sim pos n).1.initial_state = sim.initial_state := by
  intro n
  induction n with
  | zero => intro sim pos; exact ⟨rfl, rfl, rfl⟩
  | succ m ih =>
    intro sim pos
    obtain ⟨h1, h2, h3, -⟩ := doSweep_preserves sim T rand pos
    obtain ⟨g1, g2, g3⟩ :=
      ih (doSweep sim T rand pos).1 (doSweep sim T rand pos).2.2
    exact ⟨g1.trans h1, g2.trans h2, g3.trans h3⟩

lemma update_preserves (sim : IsingSimulation) (T : ℚ) (n : ℕ)
    (rand : ℕ → ℕ × Bool) (pos : ℕ) :
    (update sim T n rand pos).1.length = sim.length ∧
    (update sim T n rand pos).1.J = sim.J ∧
    (update sim T n rand pos).1.initial_state = sim.initial_state := by
  rw [update_eq_runSweeps]
  exact runSweeps_preserves T rand n sim pos

lemma applyUpdates_preserves :
    ∀ (ops : List (ℚ × ℕ × (ℕ → ℕ × Bool) × ℕ)) (sim : IsingSimulation),
      (applyUpdates sim ops).length = sim.length ∧
      (applyUpdates sim ops).J = sim.J ∧
      (applyUpdates sim ops).initial_state = sim.initial_state := by
  intro ops
  induction ops with
  | nil => intro sim; exact ⟨rfl, rfl, rfl⟩
  | cons op rest ih =>
    intro sim
    obtain ⟨T, n, rand, pos⟩ := op
    obtain ⟨h1, h2, h3⟩ := update_preserves sim T n rand pos
    obtain ⟨g1, g2, g3⟩ := ih (update sim T n rand pos).1
    exact ⟨g1.trans h1, g2.trans h2, g3.trans h3⟩

lemma addPastState_le (past : List (List ℤ)) (s : List ℤ)
    (h : past.length ≤ 1000) : (addPastState past s).length ≤ 1000 := by
  simp only [addPastState, List.length_append, List.length_singleton]
  split
  · simp only [List.length_drop, List.length_append, List.length_singleton]
    omega
  · next hlt =>
      simp only [List.length_append, List.length_singleton]
      omega

lemma addPastState_full (past : List (List ℤ)) (s : List ℤ)
    (h : past.length = 1000) : addPastState past s = past.drop 1 ++ [s] := by
  simp only [addPastState]
  rw [if_pos (by simp only [List.length_append, List.length_singleton]; omega),
    List.drop_append_of_le_length (by omega)]

lemma runSweeps_past_le (T : ℚ) (rand : ℕ → ℕ × Bool) :
    ∀ (n : ℕ) (sim : IsingSimulation) (pos : ℕ),
      sim.past_states.length ≤ 1000 →
      (runSweeps T rand sim pos n).1.past_states.length ≤ 1000 := by
  intro n
  induction n with
  | zero => intro sim pos h; exact h
  | succ m ih =>
    intro sim pos h
    obtain ⟨-, -, -, h4⟩ := doSweep_preserves sim T rand pos
    refine ih (doSweep sim T rand pos).1 (doSweep sim T rand pos).2.2 ?_
    rw [h4]
    exact addPastState_le sim.past_states sim.state h

lemma update_past_le (sim : IsingSimulation) (T : ℚ) (n : ℕ)
    (rand : ℕ → ℕ × Bool) (pos : ℕ) (h : sim.past_states.length ≤ 1000) :
    (update sim T n rand pos).1.past_states.length ≤ 1000 := by
  rw [update_eq_runSweeps]
  exact runSweeps_past_le T rand n sim pos h

lemma runUpdates_past_le (rand : ℕ → ℕ × Bool) :
    ∀ (plan : List (ℚ × ℕ)) (sim : IsingSimulation) (pos : ℕ),
      sim.past_states.length ≤ 1000 →
      (runUpdates rand sim pos plan).1.past_states.length ≤ 1000 := by
  intro plan
  induction plan with
  | nil => intro sim pos h; exact h
  | cons p rest ih =>
    intro sim pos h
    obtain ⟨T, n⟩ := p
    exact ih (update sim T n rand pos).1 (update sim T n rand pos).2.2
      (update_past_le sim T n rand pos h)

lemma init_ok_shape (L : ℕ) (J : ℤ) (o : Option (List ℤ))
    (sim : IsingSimulation) (h : init L J o = .ok sim) :
    sim.initial_state = sim.state ∧ sim.past_states = [] ∧
    sim.length = L ∧ sim.J = J := by
  cases o with
  | none =>
    simp only [init] at h
    injection h with h2
    subst h2
    exact ⟨rfl, rfl, rfl, rfl⟩
  | some l =>
    simp only [init] at h
    split at h
    · injection h with h2
      subst h2
      exact ⟨rfl, rfl, rfl, rfl⟩
    · cases h

/-! ## Claim theorems -/

/-- C10: calling `update` with zero sweeps returns the empty flipped
set and leaves the simulation (configuration and history) and the
random-stream cursor completely unchanged: no pre-sweep snapshot is
recorded and no trial step runs. -/
theorem update_zero_sweeps_noop (sim : IsingSimulation) (T : ℚ)
    (rand : ℕ → ℕ × Bool) (pos : ℕ) :
    update sim T 0 rand pos = (sim, ∅, pos) := rfl

/-- C9: on the empty list of states the correlation estimator fails
(the subscript `states[0]` raises) and returns no result. -/
theorem compute_correlations_empty_fails :
    compute_correlations [] = .error "IndexError: list index out of range" :=
  rfl

/-- C2: the constructor rejects a length-5 configuration containing the
value 2, as the claim states — but it ALSO rejects the all-(+1)
length-5 configuration, because the code demands the value set equal
`{1, -1}` exactly; a mixed configuration is accepted.  This refutes
the claim that construction with a custom all-(+1) configuration
succeeds (the constructor's own docstring — values "should be in
{1, -1}" — and its error message agree with the claim, so the code is
the slip). -/
theorem init_rejects_uniform_allones :
    init 5 (-1) (some [1, 1, 1, 1, 1]) = .error "Spins must be either 1 or -1" ∧
    init 5 (-1) (some [1, -1, 2, 1, 1]) = .error "Spins must be either 1 or -1" ∧
    init 5 (-1) (some [1, -1, 1, 1, 1])
      = .ok ⟨5, -1, [1, -1, 1, 1, 1], [1, -1, 1, 1, 1], []⟩ := by
  refine ⟨?_, ?_, ?_⟩ <;> rfl

/-- C1, counterexample: a length-2 chain with `J = 0` at `T = 1`, with
a stream that selects spin 0 on both trial steps of the sweep and, with
`dE = 0`, accepts (acceptance probability `exp(0) = 1`, so
`random.random() < 1` is in fact forced).  Spin 0 is flipped twice;
the final configuration equals the starting one, yet the sweep returns
`{0}` — not the claimed set of net-changed indices, which is `∅`. -/
theorem sweep_reports_even_flip_cex :
    init 2 0 none = .ok ⟨2, 0, [1, 1], [1, 1], []⟩ ∧
    (update ⟨2, 0, [1, 1], [1, 1], []⟩ 1 1 (fun _ => (0, true)) 0).2.1
      = {0} ∧
    (update ⟨2, 0, [1, 1], [1, 1], []⟩ 1 1 (fun _ => (0, true)) 0).1.state
      = [1, 1] ∧
    ({0} : Finset ℕ) ≠ (∅ : Finset ℕ) := by
  refine ⟨rfl, by decide, by decide, by decide⟩

/-- C1 (amended): a single sweep (`update` with `sweeps = 1`) returns
the set of spin indices that had at least one accepted flip during the
sweep.  This set contains every index whose value at the end of the
sweep differs from its value at the start — every index NOT in the
returned set is unchanged — but an index flipped an even number of
times (net unchanged) may also be reported. -/
theorem sweep_flipped_superset_of_changed (sim : IsingSimulation) (T : ℚ)
    (rand : ℕ → ℕ × Bool) (pos : ℕ) (i : ℕ)
    (h : i ∉ (update sim T 1 rand pos).2.1) :
    (update sim T 1 rand pos).1.state.getD i 0 = sim.state.getD i 0 := by
  have hu : update sim T 1 rand pos = doSweep sim T rand pos := by
    simp [update]
  rw [hu] at h ⊢
  simp only [doSweep] at h ⊢
  exact runTrials_frame sim.J sim.length T rand sim.length pos sim.state ∅ i h

/-- Witness for `sweep_flipped_superset_of_changed` at a concrete
input. -/
theorem sweep_flipped_superset_of_changed_witness :
    1 ∉ (update ⟨2, 0, [1, 1], [1, 1], []⟩ 1 1 (fun _ => (0, true)) 0).2.1 ∧
    (update ⟨2, 0, [1, 1], [1, 1], []⟩ 1 1
        (fun _ => (0, true)) 0).1.state.getD 1 0
      = (⟨2, 0, [1, 1], [1, 1], []⟩ : IsingSimulation).state.getD 1 0 :=
  ⟨by decide,
    sweep_flipped_superset_of_changed ⟨2, 0, [1, 1], [1, 1], []⟩ 1
      (fun _ => (0, true)) 0 1 (by decide)⟩

/-- C3, counterexample: a simulation whose history holds two snapshots
(reachable from `init 1 (-1) none` by two temperature-0 single-sweep
updates).  `get_past_states 2` returns 2 items — 1 past snapshot plus
the current one — not the claimed 2 + 1 = 3; and `get_past_states 0`
returns 2 items, not at most the current state. -/
theorem get_past_states_count_cex :
    init 1 (-1) none = .ok ⟨1, -1, [1], [1], []⟩ ∧
    applyUpdates ⟨1, -1, [1], [1], []⟩
        [(0, 1, fun _ => (0, true), 0), (0, 1, fun _ => (0, true), 0)]
      = ⟨1, -1, [1], [1], [[1], [1]]⟩ ∧
    (get_past_states ⟨1, -1, [1], [1], [[1], [1]]⟩ 2).length = 2 ∧
    (get_past_states ⟨1, -1, [1], [1], [[1], [1]]⟩ 0).length = 2 := by
  refine ⟨rfl, by decide, by decide, by decide⟩

/-- C3 (amended): `get_past_states count` returns `count` total items
when enough history exists, the current snapshot included: for
`count ≥ 2` it is the `min (count - 1)` (history length) most recent
past snapshots, oldest first, followed by the current snapshot; for
`count = 1` it is the entire history plus the current snapshot (a
quirk of the Python slice `[-count+1:]` at `-0`); and for
`count ≤ 0` it drops the `1 - count` oldest history entries and
returns the rest plus the current snapshot.  In particular after more
than 1000 sweeps `get_past_states 1000` returns the 999 (not 1000)
most recent pre-sweep snapshots plus the current snapshot. -/
theorem get_past_states_window_spec :
    (∀ (sim : IsingSimulation) (n : ℤ), 2 ≤ n →
      get_past_states sim n
          = sim.past_states.drop
              (sim.past_states.length - (n - 1).toNat) ++ [sim.state] ∧
      (get_past_states sim n).length
          = min (n - 1).toNat sim.past_states.length + 1) ∧
    (∀ sim : IsingSimulation,
      get_past_states sim 1 = sim.past_states ++ [sim.state]) ∧
    (∀ (sim : IsingSimulation) (n : ℤ), n ≤ 0 →
      get_past_states sim n
          = sim.past_states.drop (1 - n).toNat ++ [sim.state]) := by
  refine ⟨fun sim n hn => ⟨?_, ?_⟩, fun sim => ?_, fun sim n hn => ?_⟩
  · rw [get_past_states, pySliceFrom, if_neg (by omega)]
    congr 2
    omega
  · rw [get_past_states, pySliceFrom, if_neg (by omega)]
    simp only [List.length_append, List.length_drop, List.length_singleton]
    omega
  · rw [get_past_states, pySliceFrom, if_pos (by omega)]
    simp
  · rw [get_past_states, pySliceFrom, if_pos (by omega)]
    congr 2
    omega

/-- Witness for `get_past_states_window_spec` at a concrete input. -/
theorem get_past_states_window_spec_witness :
    (2 : ℤ) ≤ 1000 ∧
    (get_past_states ⟨1, -1, [1], [1], [[1], [1]]⟩ 1000
        = ([[1], [1]] : List (List ℤ)).drop
            (([[1], [1]] : List (List ℤ)).length - ((1000 : ℤ) - 1).toNat)
          ++ [[1]] ∧
     (get_past_states ⟨1, -1, [1], [1], [[1], [1]]⟩ 1000).length
        = min ((1000 : ℤ) - 1).toNat ([[1], [1]] : List (List ℤ)).length
            + 1) :=
  ⟨by decide,
    get_past_states_window_spec.1 ⟨1, -1, [1], [1], [[1], [1]]⟩ 1000
      (by decide)⟩

/-- C4: for every state, temperature, sweep count and stream, the
flipped set returned by `update` is the XOR (symmetric-difference fold)
of the flipped-sets of its constituent sweeps, and an index is in the
result iff it appears in an odd number of per-sweep flipped-sets; and
`schedule_update` accumulates the same XOR over the `update` call of
each `(temperature, sweep_count)` pair of the plan, applied in
order. -/
theorem update_schedule_xor_contract :
    (∀ (sim : IsingSimulation) (T : ℚ) (n : ℕ) (rand : ℕ → ℕ × Bool)
        (pos : ℕ),
      (update sim T n rand pos).2.1
          = (runSweeps T rand sim pos n).2.1.foldl xorFlips ∅ ∧
      ∀ i : ℕ, i ∈ (update sim T n rand pos).2.1 ↔
          Odd ((runSweeps T rand sim pos n).2.1.countP
            (fun f => decide (i ∈ f)))) ∧
    (∀ (sim : IsingSimulation) (plan : List (ℚ × ℕ))
        (rand : ℕ → ℕ × Bool) (pos : ℕ),
      (schedule_update sim plan rand pos).2.1
          = (runUpdates rand sim pos plan).2.1.foldl xorFlips ∅ ∧
      ∀ i : ℕ, i ∈ (schedule_update sim plan rand pos).2.1 ↔
          Odd ((runUpdates rand sim pos plan).2.1.countP
            (fun f => decide (i ∈ f)))) := by
  constructor
  · intro sim T n rand pos
    have h := update_eq_runSweeps sim T n rand pos
    refine ⟨by rw [h], fun i => ?_⟩
    rw [h]
    show i ∈ (runSweeps T rand sim pos n).2.1.foldl xorFlips ∅ ↔ _
    rw [mem_foldl_xorFlips]
    simp [Xor']
  · intro sim plan rand pos
    have h := schedule_eq_runUpdates sim plan rand pos
    refine ⟨by rw [h], fun i => ?_⟩
    rw [h]
    show i ∈ (runUpdates rand sim pos plan).2.1.foldl xorFlips ∅ ↔ _
    rw [mem_foldl_xorFlips]
    simp [Xor']

/-- C5: the length-4 chain with coupling `J = -1` and all-(+1)
configuration at temperature 0: for every number of sweeps and every
random stream, `update` returns the empty flipped set and the
configuration remains all +1 (every trial flip has `dE ≥ 0`, and at
temperature 0 no non-negative-`dE` flip is ever accepted). -/
theorem frozen_chain_at_T0 :
    init 4 (-1) none = .ok ⟨4, -1, [1, 1, 1, 1], [1, 1, 1, 1], []⟩ ∧
    ∀ (n : ℕ) (rand : ℕ → ℕ × Bool) (pos : ℕ),
      (update ⟨4, -1, [1, 1, 1, 1], [1, 1, 1, 1], []⟩ 0 n rand pos).2.1
        = ∅ ∧
      (update ⟨4, -1, [1, 1, 1, 1], [1, 1, 1, 1], []⟩ 0 n rand pos).1.state
        = [1, 1, 1, 1] := by
  refine ⟨rfl, fun n rand pos => ?_⟩
  rw [update_eq_runSweeps]
  obtain ⟨hS, hF⟩ :=
    runSweeps_frozen rand n ⟨4, -1, [1, 1, 1, 1], [1, 1, 1, 1], []⟩ pos
      rfl rfl rfl
  exact ⟨foldl_xorFlips_empty _ hF, hS⟩

/-- C6: the history buffer never exceeds 1000 entries after any
sequence of construction, updates, schedule updates and resets; and
when an append would exceed the cap the oldest entry is evicted and
the newer entries are retained in order. -/
theorem history_capacity_invariant :
    (∀ (past : List (List ℤ)) (s : List ℤ), past.length ≤ 1000 →
      (addPastState past s).length ≤ 1000) ∧
    (∀ (past : List (List ℤ)) (s : List ℤ), past.length = 1000 →
      addPastState past s = past.drop 1 ++ [s]) ∧
    (∀ (L : ℕ) (J : ℤ) (o : Option (List ℤ)) (sim : IsingSimulation),
      init L J o = .ok sim → sim.past_states.length ≤ 1000) ∧
    (∀ (sim : IsingSimulation) (T : ℚ) (n : ℕ) (rand : ℕ → ℕ × Bool)
        (pos : ℕ), sim.past_states.length ≤ 1000 →
      (update sim T n rand pos).1.past_states.length ≤ 1000) ∧
    (∀ (sim : IsingSimulation) (plan : List (ℚ × ℕ))
        (rand : ℕ → ℕ × Bool) (pos : ℕ), sim.past_states.length ≤ 1000 →
      (schedule_update sim plan rand pos).1.past_states.length ≤ 1000) ∧
    (∀ sim : IsingSimulation, (reset sim).past_states.length ≤ 1000) := by
  refine ⟨addPastState_le, addPastState_full, ?_, update_past_le, ?_, ?_⟩
  · intro L J o sim h
    rw [(init_ok_shape L J o sim h).2.1]
    simp
  · intro sim plan rand pos h
    rw [schedule_eq_runUpdates]
    exact runUpdates_past_le rand plan sim pos h
  · intro sim
    simp [reset]

/-- Witness for `history_capacity_invariant` at a concrete input. -/
theorem history_capacity_invariant_witness :
    (⟨4, -1, [1, 1, 1, 1], [1, 1, 1, 1], []⟩ :
        IsingSimulation).past_states.length ≤ 1000 ∧
    (update ⟨4, -1, [1, 1, 1, 1], [1, 1, 1, 1], []⟩ 1 2
        (fun k => (k, true)) 0).1.past_states.length ≤ 1000 :=
  ⟨by decide,
    history_capacity_invariant.2.2.2.1
      ⟨4, -1, [1, 1, 1, 1], [1, 1, 1, 1], []⟩ 1 2 (fun k => (k, true)) 0
      (by decide)⟩

/-- C7: after any sequence of updates, `reset` restores the
configuration bit-for-bit to the configuration held immediately after
construction and empties the history, leaving `length` and `J`
unchanged — indeed the reset simulation equals the freshly constructed
one. -/
theorem reset_restores_initial (L : ℕ) (J : ℤ) (o : Option (List ℤ))
    (sim0 : IsingSimulation) (h : init L J o = .ok sim0)
    (ops : List (ℚ × ℕ × (ℕ → ℕ × Bool) × ℕ)) :
    reset (applyUpdates sim0 ops) = sim0 := by
  obtain ⟨hinit, hpast, -, -⟩ := init_ok_shape L J o sim0 h
  obtain ⟨hL, hJ, hI⟩ := applyUpdates_preserves ops sim0
  rcases sim0 with ⟨Ls, Js, sts, ists, ps⟩
  have hinit2 : ists = sts := hinit
  have hpast2 : ps = [] := hpast
  subst hinit2
  subst hpast2
  simp only [reset]
  rw [hL, hJ, hI]

/-- Witness for `reset_restores_initial` at a concrete input. -/
theorem reset_restores_initial_witness :
    init 2 (-1) none = .ok ⟨2, -1, [1, 1], [1, 1], []⟩ ∧
    reset (applyUpdates ⟨2, -1, [1, 1], [1, 1], []⟩
        [(1, 1, fun _ => (0, true), 0)]) = ⟨2, -1, [1, 1], [1, 1], []⟩ :=
  ⟨rfl,
    reset_restores_initial 2 (-1) none ⟨2, -1, [1, 1], [1, 1], []⟩ rfl
      [(1, 1, fun _ => (0, true), 0)]⟩

/-- C8: for every non-empty list of snapshots over a common index
domain `0..L-1`, `compute_correlations` returns a list of exactly `L`
values whose entry `i` is the sample average over all snapshots of
`spin[0] * spin[i]`; in particular on `[[1, 1], [1, -1]]` it returns
`[1, 0]`. -/
theorem compute_correlations_spec :
    (∀ (states : List (List ℤ)) (L : ℕ), states ≠ [] →
      (∀ s ∈ states, s.length = L) →
      ∃ l : List ℚ, compute_correlations states = .ok l ∧ l.length = L ∧
        ∀ i : ℕ, i < L →
          l.getD i 0 =
            (((states.map (fun s => s.getD 0 0 * s.getD i 0)).sum : ℤ) : ℚ) /
              (states.length : ℚ)) ∧
    compute_correlations [[1, 1], [1, -1]] = .ok [1, 0] := by
  constructor
  · intro states L hne hlen
    match states, hne with
    | s0 :: rest, _ =>
      have hL0 : s0.length = L := hlen s0 (by simp)
      refine ⟨_, rfl, ?_, ?_⟩
      · simp [hL0]
      · intro i hi
        rw [List.getD_eq_getElem _ _ (by simpa [hL0] using hi),
          List.getElem_map, List.getElem_range]
  · norm_num [compute_correlations, List.range_succ]

/-- Witness for `compute_correlations_spec` at a concrete input. -/
theorem compute_correlations_spec_witness :
    ([[1, 1], [1, -1]] : List (List ℤ)) ≠ [] ∧
    ∃ l : List ℚ, compute_correlations [[1, 1], [1, -1]] = .ok l ∧
      l.length = 2 ∧
      ∀ i : ℕ, i < 2 →
        l.getD i 0 =
          (((([[1, 1], [1, -1]] : List (List ℤ)).map
              (fun s => s.getD 0 0 * s.getD i 0)).sum : ℤ) : ℚ) /
            (([[1, 1], [1, -1]] : List (List ℤ)).length : ℚ) :=
  ⟨by decide,
    compute_correlations_spec.1 [[1, 1], [1, -1]] 2 (by decide) (by decide)⟩
